import Mathlib

/-!
Verification of the grammar/spell-checker front end and the documented
statistical engine of the `grammar-spellchecker-ngram` repository.

Texts are modelled as `List Char` (JavaScript strings are sequences of
code units; all operations here are per-code-unit).  Character positions
are modelled as `Int`, because JavaScript stores them as numbers and the
position-shifting arithmetic in the result page can in principle go
negative; `jsSlice` reproduces `String.prototype.slice` clamping.
-/

namespace GrammarCheck

/-- The error-type union of `src/app/types/analysis.ts` (`ErrorType` and the
`type` field of `GrammarError`): seven string literals. `structKind` stands
for the source's `'structure'` literal and `ai` for `'ai'`. -/
inductive ErrorType where
  | spelling
  | grammar
  | punctuation
  | ngram
  | semantic
  | structKind
  | ai
deriving DecidableEq, Repr

/-- The `position : \x7bstart, end\x7d` record of `GrammarError`
(`src/app/types/analysis.ts`).  `stop` models the source's `end` field,
which is a reserved word in Lean. -/
structure Pos where
  start : Int
  stop : Int
deriving DecidableEq, Repr

/-- Model of `GrammarError` from `src/app/types/analysis.ts`. -/
structure GrammarError where
  type : ErrorType
  position : Pos
  original : List Char
  suggestion : List Char
  explanation : List Char
  sentenceIndex : Int
deriving DecidableEq, Repr

/-- Model of `SentenceAnalysis` from `src/app/types/analysis.ts`.  The float-valued
`fluencyScore` is carried as a rational: the UI only transports it. -/
structure SentenceAnalysis where
  index : Int
  original : List Char
  corrected : List Char
  errors : List GrammarError
  fluencyScore : ℚ
deriving DecidableEq, Repr

/-- The `ngramMode` union of `AnalysisResult`
(`src/app/types/analysis.ts` line 27):
`'bigram' | 'trigram' | '4gram' | 'Transformer-AI'`. -/
inductive ResultNgramMode where
  | bigram
  | trigram
  | fourgram
  | transformerAI
deriving DecidableEq, Repr

/-- The `ngram` union of `CheckTextRequest` and `CheckFileRequest`
(`src/app/types/analysis.ts` lines 33 and 39):
`'bigram' | 'trigram' | '4gram'`. -/
inductive RequestNgram where
  | bigram
  | trigram
  | fourgram
deriving DecidableEq, Repr

/-- The `ngramMode` React state of the Home page
(`src/app/page.tsx` line 17): `useState<'bigram' | 'trigram'>`. -/
inductive HomeNgramMode where
  | bigram
  | trigram
deriving DecidableEq, Repr

/-- Model of `AnalysisResult` from `src/app/types/analysis.ts`. -/
structure AnalysisResult where
  originalText : List Char
  correctedText : List Char
  errors : List GrammarError
  confidenceScore : ℚ
  sentences : List SentenceAnalysis
  ngramMode : ResultNgramMode
  processingTimeMs : Int
deriving DecidableEq, Repr

/-- Index clamping of `String.prototype.slice`: a negative index counts
from the end of the string, and every index is clamped into `[0, len]`. -/
def jsIndex (len : Nat) (i : Int) : Nat :=
  if i < 0 then ((len : Int) + i).toNat else min i.toNat len

/-- Semantics of `text.slice(a, b)` on a `List Char`. -/
def jsSlice (s : List Char) (a b : Int) : List Char :=
  (s.take (jsIndex s.length b)).drop (jsIndex s.length a)

/-- One-argument `text.slice(a)`: the end index defaults to the length. -/
def jsSliceFrom (s : List Char) (a : Int) : List Char :=
  jsSlice s a (s.length : Int)

/-- Position shifting applied by `handleApplyFix`
(`src/app/result/page.tsx` lines 52-63): an error whose `start` is strictly
greater than the fixed error's `start` has both `start` and `end` moved by
the length delta; every other error is returned unchanged. -/
def shiftError (afterStart : Int) (delta : Int) (e : GrammarError) :
    GrammarError :=
  if e.position.start > afterStart then
    { e with position := { start := e.position.start + delta,
                           stop := e.position.stop + delta } }
  else e

/-- Model of `handleApplyFix` from `src/app/result/page.tsx` (lines 38-67), acting on
the display text and the display error list.  The clicked error is
identified by its index `i` in the list; the source's reference-identity
filter `e !== error` removes exactly that element, because the errors
deserialized from session storage are pairwise distinct objects.  An
out-of-range index leaves the state unchanged (the UI only passes errors
taken from the list). -/
def handleApplyFix (text : List Char) (errors : List GrammarError)
    (i : Nat) : List Char × List GrammarError :=
  match errors[i]? with
  | none => (text, errors)
  | some e =>
      let before := jsSlice text 0 e.position.start
      let after := jsSliceFrom text e.position.stop
      let newText := before ++ e.suggestion ++ after
      let offset : Int := (e.suggestion.length : Int) - (e.original.length : Int)
      let updatedErrors :=
        (errors.eraseIdx i).map (shiftError e.position.start offset)
      (newText, updatedErrors)

/-- The React state of the result page (`src/app/result/page.tsx`):
the parsed `AnalysisResult` (set once by the load effect and never
re-assigned) together with the mutable display text and display errors. -/
structure ResultState where
  result : AnalysisResult
  displayText : List Char
  displayErrors : List GrammarError
deriving DecidableEq, Repr

/-- The initial display state produced by the load effect
(`src/app/result/page.tsx` lines 26-28): display text and errors are taken
from the stored result. -/
def initResultState (r : AnalysisResult) : ResultState :=
  { result := r, displayText := r.originalText, displayErrors := r.errors }

/-- A user interaction on the result page that touches the display state. -/
inductive UserAction where
  | applyFix (i : Nat)
  | applyAllFixes
  | reset
deriving DecidableEq, Repr

/-- One step of the result page: `handleApplyFix`, `handleApplyAllFixes`
(sets the display text to `result.correctedText` and empties the display
errors) or `handleReset` (restores `result.originalText` and
`result.errors`), per `src/app/result/page.tsx` lines 38-79. -/
def stepResult (s : ResultState) : UserAction → ResultState
  | .applyFix i =>
      let p := handleApplyFix s.displayText s.displayErrors i
      { s with displayText := p.1, displayErrors := p.2 }
  | .applyAllFixes =>
      { s with displayText := s.result.correctedText, displayErrors := [] }
  | .reset =>
      { s with displayText := s.result.originalText,
               displayErrors := s.result.errors }

/-- Run a sequence of result-page interactions from a state. -/
def runActions (s : ResultState) (acts : List UserAction) : ResultState :=
  acts.foldl stepResult s

/-- Modelled from the spec: the value of `MAX_TEXT_LENGTH` in
`src/app/lib/constants.ts`, a file absent from the sources; the spec and
`src/docs/user-manual.md` both give the maximum text length as 10,000
characters. -/
def MAX_TEXT_LENGTH : Nat := 10000

/-- Model of `TextInput.handleChange` (`src/unnamed/part_001` lines 29-34): the
proposed new value is passed to `onChange` exactly when its length is at
most `MAX_TEXT_LENGTH`; otherwise `onChange` is not invoked.  `some v`
models an `onChange(v)` call, `none` models no call. -/
def handleChange (newValue : List Char) : Option (List Char) :=
  if newValue.length ≤ MAX_TEXT_LENGTH then some newValue else none

/-- The stored text after a change event: the accepted value, or the
previous text when `onChange` was not invoked. -/
def applyChange (current newValue : List Char) : List Char :=
  (handleChange newValue).getD current

/-- Modelled from the spec: the value of `MAX_FILE_SIZE_MB` in the absent
`src/app/lib/constants.ts`; the spec's collaborator description and
`src/docs/user-manual.md` give the maximum file size as 5 MB. -/
def MAX_FILE_SIZE_MB : ℚ := 5

/-- Modelled from the spec: the value of `SUPPORTED_FILE_TYPES` in the
absent `src/app/lib/constants.ts`; `src/docs/user-manual.md` lists the
supported formats as `.txt` and `.docx`. -/
def SUPPORTED_FILE_TYPES : List (List Char) :=
  [ ['.', 't', 'x', 't'], ['.', 'd', 'o', 'c', 'x'] ]

/-- A file as seen by `FileUpload`: its name and its size in bytes. -/
structure FileInfo where
  name : List Char
  size : Nat
deriving DecidableEq, Repr

/-- The extension computed by `validateFile`
(`src/app/components/FileUpload.tsx` line 26):
`'.' + file.name.split('.').pop()?.toLowerCase()`. -/
def extensionOf (f : FileInfo) : List Char :=
  '.' :: ((f.name.splitOn '.').getLastD []).map Char.toLower

/-- Model of `validateFile` (`src/app/components/FileUpload.tsx` lines 25-38):
`none` means valid; `some msg` is the error message set by `handleFile`. -/
def validateFile (f : FileInfo) : Option (List Char) :=
  if extensionOf f ∉ SUPPORTED_FILE_TYPES then
    some ("Unsupported file type.".toList)
  else if (f.size : ℚ) / (1024 * 1024) > MAX_FILE_SIZE_MB then
    some ("File too large.".toList)
  else
    none

/-- The selection-relevant state around `FileUpload`: the component's
local error message and the page's selected file. -/
structure UploadState where
  selectedFile : Option FileInfo
  errorMsg : Option (List Char)
deriving DecidableEq, Repr

/-- Model of `handleFile` (`src/app/components/FileUpload.tsx` lines 40-49): a
failing validation sets the error message and returns without touching the
selection; a passing one clears the error and calls `onFileSelect`, which
stores the file (`src/app/page.tsx` lines 33-36). -/
def handleFile (s : UploadState) (f : FileInfo) : UploadState :=
  match validateFile f with
  | some msg => { s with errorMsg := some msg }
  | none => { selectedFile := some f, errorMsg := none }

/-- Model of `TextSegment` from `src/app/components/HighlightedText.tsx`
(lines 13-18).  `stop` models the source's `end` field. -/
structure TextSegment where
  text : List Char
  error : Option GrammarError
  start : Int
  stop : Int
deriving DecidableEq, Repr

/-- The copy-and-sort `[...errors].sort((a, b) => a.position.start -
b.position.start)` of `src/app/components/HighlightedText.tsx` line 33:
a stable sort by ascending `position.start`. -/
def sortByStart (errors : List GrammarError) : List GrammarError :=
  errors.mergeSort (fun a b => decide (a.position.start ≤ b.position.start))

/-- The loop body of the `segments` memo
(`src/app/components/HighlightedText.tsx` lines 34-64): for each sorted
error, push the plain gap segment (when the error starts beyond the
current index), push the error's own segment, advance the current index to
the error's end; finally push the plain tail segment when the current
index is short of the text length. -/
def segmentsGo (text : List Char) : List GrammarError → Int → List TextSegment
  | [], cur =>
      if cur < (text.length : Int) then
        [⟨jsSliceFrom text cur, none, cur, (text.length : Int)⟩]
      else []
  | e :: rest, cur =>
      (if e.position.start > cur then
        [⟨jsSlice text cur e.position.start, none, cur, e.position.start⟩]
      else []) ++
      ⟨jsSlice text e.position.start e.position.stop, some e,
        e.position.start, e.position.stop⟩ ::
      segmentsGo text rest e.position.stop

/-- The `segments` memo of `src/app/components/HighlightedText.tsx`
(lines 28-67). -/
def segments (text : List Char) (errors : List GrammarError) :
    List TextSegment :=
  if errors.isEmpty then [⟨text, none, 0, (text.length : Int)⟩]
  else segmentsGo text (sortByStart errors) 0

/-- The segment corresponding to an error: its span's slice of the text,
carrying that error. -/
def errorSegment (text : List Char) (e : GrammarError) : TextSegment :=
  ⟨jsSlice text e.position.start e.position.stop, some e,
    e.position.start, e.position.stop⟩

/-- Contiguity of a segment list: starting from `cur`, each segment starts
exactly where the previous one ended (so starts are ascending), and the
last one ends at `fin`. -/
def chainFrom : Int → List TextSegment → Int → Prop
  | cur, [], fin => cur = fin
  | cur, s :: rest, fin => s.start = cur ∧ cur ≤ s.stop ∧ chainFrom s.stop rest fin

/-- A well-formed error span inside a text of length `len`: nonempty and
contained in `[0, len]`. -/
def wfSpan (len : Nat) (e : GrammarError) : Prop :=
  0 ≤ e.position.start ∧ e.position.start < e.position.stop ∧
    e.position.stop ≤ (len : Int)

/-- Two error spans do not overlap. -/
def spansDisjoint (a b : GrammarError) : Prop :=
  a.position.stop ≤ b.position.start ∨ b.position.stop ≤ a.position.start

instance (len : Nat) (e : GrammarError) : Decidable (wfSpan len e) := by
  unfold wfSpan
  infer_instance

instance (a b : GrammarError) : Decidable (spansDisjoint a b) := by
  unfold spansDisjoint
  infer_instance

/-! ### The statistical engine, modelled from the spec

The backend engine (tokenizer, Kneser-Ney estimator, correction decision
engine, orchestrator) is a Python service whose sources are not in the
repository snapshot; only its documentation (`src/unnamed/part_000`,
`src/docs/*`) is.  The definitions below are modelled from the spec. -/

/-- Modelled from the spec: the per-sentence grammar-correction cap of the
Correction Decision Engine, `floor(0.30 * N)` for a sentence of `N` word
tokens (the engine's code is absent from the sources). -/
def grammarCap (n : Nat) : Nat := 3 * n / 10

/-- Modelled from the spec: the left-to-right pass of the Correction
Decision Engine over the word tokens of one sentence (the engine's code is
absent from the sources).  For token index `i`, `spell i` says whether the
spelling pass flags it and `exceeds i` whether its best substitution
candidate passes the `P_best > 2 × P_original` threshold.  A grammar flag
is raised only when the running corrected-word count would stay at or
below `0.30 × n`; the spelling verdict is recorded unconditionally.  Each
output pair is `(spelling flag, grammar flag)` for one token. -/
def sentencePassAux (spell exceeds : Nat → Bool) (n : Nat) :
    List Nat → Nat → List (Bool × Bool)
  | [], _ => []
  | i :: rest, flagged =>
      if exceeds i = true ∧ 10 * (flagged + 1) ≤ 3 * n then
        (spell i, true) :: sentencePassAux spell exceeds n rest (flagged + 1)
      else
        (spell i, false) :: sentencePassAux spell exceeds n rest flagged

/-- Modelled from the spec: the verdicts for a sentence of `n` word
tokens, processed left to right starting with a zero corrected-word
count. -/
def sentencePass (spell exceeds : Nat → Bool) (n : Nat) :
    List (Bool × Bool) :=
  sentencePassAux spell exceeds n (List.range n) 0

/-- Modelled from the spec: the fixed Kneser-Ney discount `d = 0.75`. -/
def discount : ℚ := 3 / 4

/-- Modelled from the spec: the count statistics of one n-gram order used
by the Kneser-Ney Estimator, whose code is absent from the sources.
`ctxCount c` is `count(c)`, `fullCount c w` is `count(c, w)`,
`distinctCont c` is `distinct_continuations(c)` and `contProb w` is the
continuation probability `P_continuation(w)`. -/
structure KNOrder (α : Type) where
  ctxCount : List α → Nat
  fullCount : List α → α → Nat
  distinctCont : List α → Nat
  contProb : α → ℚ

/-- Modelled from the spec: the Kneser-Ney interpolation weight
`λ(c) = d * distinct_continuations(c) / count(c)`, defaulting to 1 for an
unseen context. -/
def knLambda {α : Type} (K : KNOrder α) (c : List α) : ℚ :=
  if 0 < K.ctxCount c then
    discount * (K.distinctCont c : ℚ) / (K.ctxCount c : ℚ)
  else 1

/-- Modelled from the spec: the discounted first term
`max(count(c, w) - d, 0) / count(c)`, taken as 0 for an unseen context. -/
def knFirstTerm {α : Type} (K : KNOrder α) (c : List α) (w : α) : ℚ :=
  if 0 < K.ctxCount c then
    max ((K.fullCount c w : ℚ) - discount) 0 / (K.ctxCount c : ℚ)
  else 0

/-- Modelled from the spec: the smoothed Kneser-Ney probability
`P_KN(w | c)`, the discounted term plus the weighted continuation
probability. -/
def pKN {α : Type} (K : KNOrder α) (c : List α) (w : α) : ℚ :=
  knFirstTerm K c w + knLambda K c * K.contProb w

/-- Modelled from the spec: relative frequency over the vocabulary, the
degenerate continuation probability of the unigram order. -/
def relFreq {α : Type} (vocabCount : α → Nat) (totalWords : Nat) (w : α) : ℚ :=
  (vocabCount w : ℚ) / (totalWords : ℚ)

/-- Modelled from the spec: the unigram order of the Kneser-Ney Estimator;
every query shares the single empty context, whose count is the corpus
word total, and the continuation probability degenerates to relative
frequency over the vocabulary. -/
def unigramOrder {α : Type} (vocabCount : α → Nat)
    (totalWords distinct : Nat) : KNOrder α :=
  { ctxCount := fun _ => totalWords
    fullCount := fun _ w => vocabCount w
    distinctCont := fun _ => distinct
    contProb := relFreq vocabCount totalWords }

/-- The whitespace characters recognised when deciding that an input is
blank. -/
def isSpaceChar (c : Char) : Bool :=
  c == ' ' || c == '\t' || c == '\n' || c == '\r'

/-- Modelled from the spec: sentence splitting of the Tokenizer/Segmenter
(code absent from the sources) — a sentence ends at terminal punctuation,
and trailing material without a terminator forms a final sentence. -/
def splitSentencesAux : List Char → List Char → List (List Char)
  | [], acc => if acc.isEmpty then [] else [acc.reverse]
  | c :: rest, acc =>
      if c == '.' || c == '!' || c == '?' then
        (acc.reverse ++ [c]) :: splitSentencesAux rest []
      else splitSentencesAux rest (c :: acc)

/-- Modelled from the spec: the segmenter contract — empty or
whitespace-only input yields an empty sentence list, otherwise the text is
split at sentence terminators. -/
def segmentSentences (text : List Char) : List (List Char) :=
  if (text.filter (fun c => !isSpaceChar c)).isEmpty then []
  else splitSentencesAux text []

/-- The document-level aggregate produced by the modelled orchestrator. -/
structure ModelAnalysis where
  sentences : List (List Char)
  errors : List GrammarError
  confidenceScore : ℚ

/-- Modelled from the spec: the Analysis Orchestrator (code absent from
the sources), parameterised by the per-sentence error pass and the
per-sentence fluency score.  The document confidence is the mean of the
per-sentence scores, reported as 100 when there is no sentence. -/
def analyze (checkSentence : List Char → List GrammarError)
    (fluency : List Char → ℚ) (text : List Char) : ModelAnalysis :=
  let sents := segmentSentences text
  { sentences := sents
    errors := (sents.map checkSentence).flatten
    confidenceScore :=
      if sents.isEmpty then 100
      else (sents.map fluency).sum / (sents.length : ℚ) }

/-- Witness data: a six-character text. -/
def wText : List Char := ['a', 'b', 'c', 'd', 'e', 'f']

/-- Witness data: an error spanning `[1, 3)` of `wText` with a shorter
suggestion. -/
def wE0 : GrammarError :=
  { type := .grammar, position := ⟨1, 3⟩, original := ['b', 'c'],
    suggestion := ['X'], explanation := [], sentenceIndex := 0 }

/-- Witness data: an error spanning `[4, 5)` of `wText`, after `wE0`. -/
def wE1 : GrammarError :=
  { type := .spelling, position := ⟨4, 5⟩, original := ['e'],
    suggestion := ['Q'], explanation := [], sentenceIndex := 0 }

/-- C5 witness data: a small concrete bigram-style order over `Nat`
words: context `[1]` was seen twice, context `[2]` never. -/
def wKN : KNOrder Nat :=
  { ctxCount := fun c => if c = [1] then 2 else 0
    fullCount := fun c w => if c = [1] ∧ w = 7 then 2 else 0
    distinctCont := fun c => if c = [1] then 1 else 0
    contProb := fun w => if w = 7 then 1 / 2 else 1 / 4 }

/-- C10 witness data: a small supported file and an oversized one. -/
def wFileOk : FileInfo := { name := "Notes.TXT".toList, size := 1024 }

/-- C10 witness data: a docx file larger than 5 MB. -/
def wFileBig : FileInfo := { name := "big.docx".toList, size := 6 * 1024 * 1024 }

/-! ## Theorems -/

theorem jsIndex_ofNat (len k : Nat) (hk : k ≤ len) :
    jsIndex len (k : Int) = k := by
  simp [jsIndex, Int.toNat_ofNat, hk]

theorem jsIndex_nonneg_eq (len : Nat) (i : Int) (h0 : 0 ≤ i)
    (hl : i ≤ (len : Int)) : jsIndex len i = i.toNat := by
  have : ¬ i < 0 := not_lt.mpr h0
  have h2 : i.toNat ≤ len := by omega
  simp [jsIndex, this, min_eq_left h2]

theorem jsSlice_eq_take_drop (s : List Char) (a b : Int) (h0 : 0 ≤ a)
    (hab : a ≤ b) (hb : b ≤ (s.length : Int)) :
    jsSlice s a b = (s.take b.toNat).drop a.toNat := by
  rw [jsSlice, jsIndex_nonneg_eq _ _ h0 (le_trans hab hb),
    jsIndex_nonneg_eq _ _ (le_trans h0 hab) hb]

theorem jsSlice_zero (s : List Char) (b : Int) (h0 : 0 ≤ b)
    (hb : b ≤ (s.length : Int)) : jsSlice s 0 b = s.take b.toNat := by
  rw [jsSlice_eq_take_drop s 0 b le_rfl h0 hb]
  simp

theorem jsSliceFrom_eq_drop (s : List Char) (a : Int) (h0 : 0 ≤ a)
    (ha : a ≤ (s.length : Int)) : jsSliceFrom s a = s.drop a.toNat := by
  rw [jsSliceFrom, jsSlice_eq_take_drop s a _ h0 ha le_rfl]
  simp

theorem spansDisjoint_symm : Symmetric spansDisjoint := by
  intro a b h
  exact h.symm

theorem sliceGlue (xs : List Char) (a b : Nat) (hab : a ≤ b) :
    (xs.take b).drop a ++ xs.drop b = xs.drop a := by
  rw [List.drop_take]
  have : xs.drop b = (xs.drop a).drop (b - a) := by
    rw [List.drop_drop]
    congr 1
    omega
  rw [this, List.take_append_drop]

theorem segmentsGo_spec (text : List Char) (l : List GrammarError)
    (cur : Int) (h0 : 0 ≤ cur) (hlen : cur ≤ (text.length : Int))
    (hge : ∀ e ∈ l, cur ≤ e.position.start)
    (hwf : ∀ e ∈ l, wfSpan text.length e)
    (hsort : l.Pairwise (fun a b => a.position.stop ≤ b.position.start)) :
    ((segmentsGo text l cur).map TextSegment.text).flatten = jsSliceFrom text cur
    ∧ chainFrom cur (segmentsGo text l cur) (text.length : Int)
    ∧ ∀ e ∈ l, errorSegment text e ∈ segmentsGo text l cur := by
  induction l generalizing cur with
  | nil =>
      by_cases h : cur < (text.length : Int)
      · refine ⟨by simp [segmentsGo, h], ?_, by simp⟩
        simpa [segmentsGo, h, chainFrom] using le_of_lt h
      · have hc : cur = (text.length : Int) := le_antisymm hlen (not_lt.mp h)
        refine ⟨?_, ?_, by simp⟩
        · rw [jsSliceFrom_eq_drop text cur h0 hlen, hc]
          simp [segmentsGo, h]
        · simp [segmentsGo, h, chainFrom, hc]
  | cons e rest ih =>
      have hcs : cur ≤ e.position.start := hge e (List.mem_cons_self e rest)
      obtain ⟨hes0, heslt, hestop⟩ := hwf e (List.mem_cons_self e rest)
      have hrest_ge : ∀ x ∈ rest, e.position.stop ≤ x.position.start :=
        fun x hx => List.rel_of_pairwise_cons hsort hx
      have hstop0 : (0:Int) ≤ e.position.stop := le_of_lt (lt_of_le_of_lt hes0 heslt)
      obtain ⟨ihjoin, ihchain, ihmem⟩ :=
        ih e.position.stop hstop0 hestop hrest_ge
          (fun x hx => hwf x (List.mem_cons_of_mem e hx))
          (List.Pairwise.of_cons hsort)
      have heslelen : e.position.start ≤ (text.length : Int) :=
        le_of_lt (lt_of_lt_of_le heslt hestop)
      have hglue2 : jsSlice text e.position.start e.position.stop ++
          jsSliceFrom text e.position.stop = jsSliceFrom text e.position.start := by
        rw [jsSlice_eq_take_drop text _ _ hes0 (le_of_lt heslt) hestop,
          jsSliceFrom_eq_drop text _ hstop0 hestop,
          jsSliceFrom_eq_drop text _ hes0 heslelen]
        exact sliceGlue text _ _ (by omega)
      by_cases hgap : e.position.start > cur
      · have hglue1 : jsSlice text cur e.position.start ++
            jsSliceFrom text e.position.start = jsSliceFrom text cur := by
          rw [jsSlice_eq_take_drop text _ _ h0 (le_of_lt hgap) heslelen,
            jsSliceFrom_eq_drop text _ hes0 heslelen,
            jsSliceFrom_eq_drop text _ h0 hlen]
          exact sliceGlue text _ _ (by omega)
        refine ⟨?_, ?_, ?_⟩
        · simp only [segmentsGo, if_pos hgap, List.map_append, List.map_cons,
            List.flatten_append, List.flatten_cons]
          rw [ihjoin, hglue2]
          simpa using hglue1
        · simp only [segmentsGo, if_pos hgap, List.singleton_append]
          exact ⟨rfl, le_of_lt hgap, rfl, le_of_lt heslt, ihchain⟩
        · intro x hx
          rcases List.mem_cons.mp hx with hx | hx
          · subst hx
            simp [segmentsGo, if_pos hgap, errorSegment]
          · simp only [segmentsGo, if_pos hgap, List.singleton_append]
            exact List.mem_cons_of_mem _ (List.mem_cons_of_mem _ (ihmem x hx))
      · have hceq : e.position.start = cur := le_antisymm (not_lt.mp hgap) hcs
        refine ⟨?_, ?_, ?_⟩
        · simp only [segmentsGo, if_neg hgap, List.nil_append, List.map_cons,
            List.flatten_cons]
          rw [ihjoin, hglue2, hceq]
        · have hcstop : cur ≤ e.position.stop := by omega
          simp only [segmentsGo, if_neg hgap, List.nil_append]
          exact ⟨hceq, hcstop, ihchain⟩
        · intro x hx
          rcases List.mem_cons.mp hx with hx | hx
          · subst hx
            simp [segmentsGo, if_neg hgap, errorSegment]
          · simp only [segmentsGo, if_neg hgap, List.nil_append]
            exact List.mem_cons_of_mem _ (ihmem x hx)

theorem sortByStart_perm (errors : List GrammarError) :
    (sortByStart errors).Perm errors :=
  List.mergeSort_perm errors _

theorem sortByStart_sorted (errors : List GrammarError) :
    (sortByStart errors).Pairwise
      (fun a b => a.position.start ≤ b.position.start) := by
  have h := @List.sorted_mergeSort GrammarError
    (fun a b => decide (a.position.start ≤ b.position.start))
    (fun a b c h1 h2 => by
      simp only [decide_eq_true_eq] at *
      omega)
    (fun a b => by
      simp only [Bool.or_eq_true, decide_eq_true_eq]
      omega)
    errors
  exact h.imp (by simp)

theorem sorted_disjoint_chain (l : List GrammarError) (len : Nat)
    (hwf : ∀ e ∈ l, wfSpan len e) (hdisj : l.Pairwise spansDisjoint)
    (hsorted : l.Pairwise (fun a b => a.position.start ≤ b.position.start)) :
    l.Pairwise (fun a b => a.position.stop ≤ b.position.start) := by
  refine (hsorted.and hdisj).imp_of_mem ?_
  intro a b ha hb hab
  obtain ⟨hle, hd⟩ := hab
  obtain ⟨ha0, halt, hatop⟩ := hwf a ha
  obtain ⟨hb0, hblt, hbtop⟩ := hwf b hb
  rcases hd with h | h
  · exact h
  · exfalso
    unfold wfSpan at *
    omega

theorem sentencePassAux_count (spell exceeds : Nat → Bool) (n : Nat)
    (l : List Nat) (flagged : Nat) :
    ((sentencePassAux spell exceeds n l flagged).map Prod.snd).count true
      + flagged ≤ max flagged (grammarCap n) := by
  induction l generalizing flagged with
  | nil => simp [sentencePassAux]
  | cons i rest ih =>
      by_cases h : exceeds i = true ∧ 10 * (flagged + 1) ≤ 3 * n
      · have hcap : flagged + 1 ≤ grammarCap n :=
          (Nat.le_div_iff_mul_le (by norm_num)).mpr (by omega)
        have hrec := ih (flagged + 1)
        have hmax : max (flagged + 1) (grammarCap n) = grammarCap n :=
          max_eq_right hcap
        rw [hmax] at hrec
        have hle : grammarCap n ≤ max flagged (grammarCap n) := le_max_right _ _
        simp only [sentencePassAux, if_pos h, List.map_cons, List.count_cons]
        simp only [beq_self_eq_true, if_pos]
        omega
      · have hrec := ih flagged
        simp only [sentencePassAux, if_neg h, List.map_cons, List.count_cons]
        simp
        omega

theorem sentencePassAux_spell (spell exceeds : Nat → Bool) (n : Nat)
    (l : List Nat) (flagged : Nat) :
    (sentencePassAux spell exceeds n l flagged).map Prod.fst =
      l.map spell := by
  induction l generalizing flagged with
  | nil => simp [sentencePassAux]
  | cons i rest ih =>
      by_cases h : exceeds i = true ∧ 10 * (flagged + 1) ≤ 3 * n
      · simp only [sentencePassAux, if_pos h, List.map_cons, ih]
      · simp only [sentencePassAux, if_neg h, List.map_cons, ih]

/-- C1: for a display state whose clicked error's span matches its
`original`, `handleApplyFix` splices the suggestion over the span, removes
the clicked error, shifts every remaining error that starts strictly after
the clicked error's start by the length delta in both `start` and `end`,
and leaves every remaining error starting at or before it unchanged. -/
theorem applyFix_splices_and_shifts (text : List Char)
    (errors : List GrammarError) (i : Nat) (hi : i < errors.length)
    (h0 : 0 ≤ (errors.get ⟨i, hi⟩).position.start)
    (hse : (errors.get ⟨i, hi⟩).position.start ≤ (errors.get ⟨i, hi⟩).position.stop)
    (hel : (errors.get ⟨i, hi⟩).position.stop ≤ (text.length : Int))
    (hspan : jsSlice text (errors.get ⟨i, hi⟩).position.start
      (errors.get ⟨i, hi⟩).position.stop = (errors.get ⟨i, hi⟩).original) :
    (handleApplyFix text errors i).1 =
      text.take (errors.get ⟨i, hi⟩).position.start.toNat ++
        (errors.get ⟨i, hi⟩).suggestion ++
        text.drop (errors.get ⟨i, hi⟩).position.stop.toNat
    ∧ (handleApplyFix text errors i).2 =
      (errors.eraseIdx i).map (shiftError (errors.get ⟨i, hi⟩).position.start
        (((errors.get ⟨i, hi⟩).suggestion.length : Int) -
          ((errors.get ⟨i, hi⟩).original.length : Int)))
    ∧ ∀ delta : Int, ∀ e : GrammarError,
        ((errors.get ⟨i, hi⟩).position.start < e.position.start →
          shiftError (errors.get ⟨i, hi⟩).position.start delta e =
            { e with position := ⟨e.position.start + delta,
                                  e.position.stop + delta⟩ })
        ∧ (e.position.start ≤ (errors.get ⟨i, hi⟩).position.start →
          shiftError (errors.get ⟨i, hi⟩).position.start delta e = e) := by
  have hget : errors[i]? = some (errors.get ⟨i, hi⟩) := by
    simp [List.getElem?_eq_getElem hi]
  refine ⟨?_, ?_, ?_⟩
  · simp only [handleApplyFix, hget]
    rw [jsSlice_zero text _ h0 (le_trans hse hel),
      jsSliceFrom_eq_drop text _ (le_trans h0 hse) hel]
  · simp only [handleApplyFix, hget]
  · intro delta e
    constructor
    · intro hgt
      unfold shiftError
      rw [if_pos hgt]
    · intro hle
      unfold shiftError
      rw [if_neg (not_lt.mpr hle)]

/-- C1 witness: the theorem applied to `wText` with errors `[wE0, wE1]`,
fixing `wE0` (delta `-1`). -/
theorem applyFix_splices_and_shifts_witness :
    jsSlice wText 1 3 = wE0.original ∧
    (handleApplyFix wText [wE0, wE1] 0).1 =
      wText.take 1 ++ wE0.suggestion ++ wText.drop 3 ∧
    (handleApplyFix wText [wE0, wE1] 0).2 =
      ([wE0, wE1].eraseIdx 0).map (shiftError 1 (-1)) := by
  have h := applyFix_splices_and_shifts wText [wE0, wE1] 0 (by decide)
    (by decide) (by decide) (by decide) (by decide)
  exact ⟨by decide, h.1, h.2.1⟩

/-- C2 counterexample: `'4gram'` is a value of the request-interface
n-gram field that is neither `'bigram'` nor `'trigram'`. -/
theorem requestNgram_not_binary :
    ¬ (RequestNgram.fourgram = RequestNgram.bigram ∨
       RequestNgram.fourgram = RequestNgram.trigram) := by
  decide

/-- C2 (amended): the request-interface n-gram field ranges over exactly
`bigram`, `trigram` and `4gram`; the result-interface mode additionally
admits `Transformer-AI`; and the Home page's submitted mode state is
restricted to `bigram` or `trigram`. -/
theorem ngramMode_closed_enumeration :
    (∀ m : RequestNgram,
      m = .bigram ∨ m = .trigram ∨ m = .fourgram) ∧
    (∀ m : ResultNgramMode,
      m = .bigram ∨ m = .trigram ∨ m = .fourgram ∨ m = .transformerAI) ∧
    (∀ m : HomeNgramMode, m = .bigram ∨ m = .trigram) := by
  refine ⟨fun m => ?_, fun m => ?_, fun m => ?_⟩ <;> cases m <;> simp

theorem stepResult_result (s : ResultState) (a : UserAction) :
    (stepResult s a).result = s.result := by
  cases a <;> rfl

theorem runActions_result (s : ResultState) (acts : List UserAction) :
    (runActions s acts).result = s.result := by
  induction acts generalizing s with
  | nil => rfl
  | cons a rest ih =>
      have hstep : runActions s (a :: rest) = runActions (stepResult s a) rest :=
        rfl
      rw [hstep, ih, stepResult_result]

/-- C3: the stored `AnalysisResult` survives any sequence of result-page
interactions unchanged, and a `Reset` after such a sequence restores the
display text to `originalText` and the display errors to exactly
`errors`. -/
theorem reset_round_trip (r : AnalysisResult) (acts : List UserAction) :
    (runActions (initResultState r) acts).result = r ∧
    (stepResult (runActions (initResultState r) acts) .reset).displayText =
      r.originalText ∧
    (stepResult (runActions (initResultState r) acts) .reset).displayErrors =
      r.errors := by
  have h : (runActions (initResultState r) acts).result = r :=
    runActions_result (initResultState r) acts
  refine ⟨h, ?_, ?_⟩ <;> simp [stepResult, h]

theorem sentencePassAux_capped (spell exceeds : Nat → Bool) (n : Nat)
    (l : List Nat) (flagged : Nat) (hcap : grammarCap n ≤ flagged) :
    ((sentencePassAux spell exceeds n l flagged).map Prod.snd).count true
      = 0 := by
  induction l with
  | nil => simp [sentencePassAux]
  | cons i rest ih =>
      have hno : ¬ (exceeds i = true ∧ 10 * (flagged + 1) ≤ 3 * n) := by
        rintro ⟨-, h10⟩
        unfold grammarCap at hcap
        omega
      simp only [sentencePassAux, if_neg hno, List.map_cons, List.count_cons]
      simp [ih]

/-- C4 (spec-modelled): in a sentence of `n` word tokens the number of
grammar flags raised by the left-to-right decision pass is at most
`floor(0.30 * n)`, whatever the threshold verdicts are; once the running
count has reached the cap no further grammar flag is raised; and the
spelling verdicts are exactly the uncapped per-token spelling flags. -/
theorem grammar_flags_capped (spell exceeds : Nat → Bool) (n : Nat) :
    ((sentencePass spell exceeds n).map Prod.snd).count true ≤ grammarCap n
    ∧ (sentencePass spell exceeds n).map Prod.fst =
        (List.range n).map spell
    ∧ ∀ (l : List Nat) (flagged : Nat), grammarCap n ≤ flagged →
        ((sentencePassAux spell exceeds n l flagged).map Prod.snd).count true
          = 0 := by
  refine ⟨?_, sentencePassAux_spell spell exceeds n (List.range n) 0,
    fun l flagged h => sentencePassAux_capped spell exceeds n l flagged h⟩
  have h := sentencePassAux_count spell exceeds n (List.range n) 0
  simpa [sentencePass, Nat.max_eq_right (Nat.zero_le _)] using h

/-- C4 witness: a ten-word sentence where every token passes the
probability threshold still gets at most three grammar flags, and the cap
blocks any further flag. -/
theorem grammar_flags_capped_witness :
    ((sentencePass (fun _ => false) (fun _ => true) 10).map
      Prod.snd).count true ≤ grammarCap 10 ∧
    grammarCap 10 ≤ 3 ∧
    ((sentencePassAux (fun _ => false) (fun _ => true) 10 [0, 1, 2] 3).map
      Prod.snd).count true = 0 :=
  ⟨(grammar_flags_capped (fun _ => false) (fun _ => true) 10).1,
    by decide,
    (grammar_flags_capped (fun _ => false) (fun _ => true) 10).2.2
      [0, 1, 2] 3 (by decide)⟩

/-- C5 (spec-modelled): the Kneser-Ney probability equals the discounted
term plus `λ(c)` times the continuation probability with `d = 0.75`
whenever `count(c) > 0`; for an unseen context the first term vanishes,
`λ(c)` defaults to 1, and the probability collapses to the continuation
probability; and the unigram order's continuation probability is relative
frequency over the vocabulary. -/
theorem kneserNey_formula {α : Type} (K : KNOrder α) (c : List α) (w : α) :
    (0 < K.ctxCount c →
      pKN K c w =
        max ((K.fullCount c w : ℚ) - discount) 0 / (K.ctxCount c : ℚ) +
          (discount * (K.distinctCont c : ℚ) / (K.ctxCount c : ℚ)) *
            K.contProb w
      ∧ knLambda K c =
          discount * (K.distinctCont c : ℚ) / (K.ctxCount c : ℚ))
    ∧ (K.ctxCount c = 0 →
      pKN K c w = K.contProb w ∧ knLambda K c = 1)
    ∧ discount = 3 / 4
    ∧ ∀ (vocabCount : α → Nat) (totalWords distinct : Nat) (w' : α),
        (unigramOrder vocabCount totalWords distinct).contProb w' =
          (vocabCount w' : ℚ) / (totalWords : ℚ) := by
  refine ⟨fun hpos => ?_, fun hzero => ?_, rfl, fun _ _ _ _ => rfl⟩
  · constructor
    · unfold pKN knFirstTerm knLambda
      rw [if_pos hpos, if_pos hpos]
    · unfold knLambda
      rw [if_pos hpos]
  · have hneg : ¬ 0 < K.ctxCount c := by omega
    constructor
    · unfold pKN knFirstTerm knLambda
      rw [if_neg hneg, if_neg hneg]
      ring
    · unfold knLambda
      rw [if_neg hneg]

/-- C5 witness: the formula applied to the seen context `[1]` and the
unseen context `[2]` of `wKN`. -/
theorem kneserNey_formula_witness :
    (0 < wKN.ctxCount [1] ∧
      pKN wKN [1] 7 =
        max ((wKN.fullCount [1] 7 : ℚ) - discount) 0 / (wKN.ctxCount [1] : ℚ) +
          (discount * (wKN.distinctCont [1] : ℚ) / (wKN.ctxCount [1] : ℚ)) *
            wKN.contProb 7) ∧
    (wKN.ctxCount [2] = 0 ∧ pKN wKN [2] 7 = wKN.contProb 7 ∧
      knLambda wKN [2] = 1) :=
  ⟨⟨by decide, ((kneserNey_formula wKN [1] 7).1 (by decide)).1⟩,
    ⟨by decide, (kneserNey_formula wKN [2] 7).2.1 (by decide)⟩⟩

/-- C6 (spec-modelled constant): a change event is accepted — `onChange`
invoked with the new value — exactly when the proposed value is at most
`MAX_TEXT_LENGTH` characters, and consequently the stored text, starting
empty, never exceeds 10,000 characters over any sequence of change
events. -/
theorem text_length_invariant :
    (∀ v : List Char,
      (handleChange v).isSome ↔ v.length ≤ MAX_TEXT_LENGTH) ∧
    (∀ v : List Char, v.length ≤ MAX_TEXT_LENGTH → handleChange v = some v) ∧
    ∀ edits : List (List Char),
      (edits.foldl applyChange []).length ≤ 10000 := by
  refine ⟨fun v => ?_, fun v hv => ?_, fun edits => ?_⟩
  · unfold handleChange
    split <;> simp_all
  · unfold handleChange
    rw [if_pos hv]
  · have key : ∀ (l : List (List Char)) (cur : List Char),
        cur.length ≤ MAX_TEXT_LENGTH →
        (l.foldl applyChange cur).length ≤ MAX_TEXT_LENGTH := by
      intro l
      induction l with
      | nil => intro cur h; simpa using h
      | cons v rest ih =>
          intro cur h
          have hstep : (applyChange cur v).length ≤ MAX_TEXT_LENGTH := by
            unfold applyChange handleChange
            split <;> simpa [*]
          simpa [List.foldl_cons] using ih (applyChange cur v) hstep
    simpa [MAX_TEXT_LENGTH] using key edits [] (by simp)

/-- C6 witness: a one-character change is accepted. -/
theorem text_length_invariant_witness :
    ['a'].length ≤ MAX_TEXT_LENGTH ∧ handleChange ['a'] = some ['a'] :=
  ⟨by decide, text_length_invariant.2.1 ['a'] (by decide)⟩

/-- C7 counterexample: `'ngram'` is a representable error-type value that
is none of spelling, grammar, punctuation. -/
theorem errorType_not_three :
    ¬ (ErrorType.ngram = ErrorType.spelling ∨
       ErrorType.ngram = ErrorType.grammar ∨
       ErrorType.ngram = ErrorType.punctuation) := by
  decide

/-- C7 (amended): the error-type tag is a closed variant with exactly
seven distinct kinds — spelling, grammar, punctuation, ngram, semantic,
structure, ai — of which the three analysis-engine kinds are a strict
subset. -/
theorem errorType_closed_seven :
    (∀ t : ErrorType,
      t = .spelling ∨ t = .grammar ∨ t = .punctuation ∨ t = .ngram ∨
        t = .semantic ∨ t = .structKind ∨ t = .ai) ∧
    ([ErrorType.spelling, .grammar, .punctuation, .ngram, .semantic,
      .structKind, .ai] : List ErrorType).Nodup := by
  exact ⟨fun t => by cases t <;> simp, by decide⟩

/-- C8 (spec-modelled): analyzing an empty or whitespace-only input
yields zero sentences, zero errors, and a confidence score of 100. -/
theorem analyze_whitespace_only
    (checkSentence : List Char → List GrammarError)
    (fluency : List Char → ℚ) (text : List Char)
    (hws : ∀ c ∈ text, isSpaceChar c = true) :
    (analyze checkSentence fluency text).sentences = [] ∧
    (analyze checkSentence fluency text).errors = [] ∧
    (analyze checkSentence fluency text).confidenceScore = 100 := by
  have hfil : text.filter (fun c => !isSpaceChar c) = [] := by
    rw [List.filter_eq_nil_iff]
    intro c hc
    simp [hws c hc]
  have hseg : segmentSentences text = [] := by
    unfold segmentSentences
    rw [if_pos (by simp [hfil])]
  refine ⟨?_, ?_, ?_⟩ <;> simp [analyze, hseg]

/-- C8 witness: a space-and-newline input analyzes to the empty result
with confidence 100. -/
theorem analyze_whitespace_only_witness :
    (∀ c ∈ [' ', '\n', ' '], isSpaceChar c = true) ∧
    (analyze (fun _ => []) (fun _ => 0) [' ', '\n', ' ']).sentences = [] ∧
    (analyze (fun _ => []) (fun _ => 0) [' ', '\n', ' ']).errors = [] ∧
    (analyze (fun _ => []) (fun _ => 0)
      [' ', '\n', ' ']).confidenceScore = 100 := by
  have h := analyze_whitespace_only (fun _ => []) (fun _ => 0)
    [' ', '\n', ' '] (by decide)
  exact ⟨by decide, h.1, h.2.1, h.2.2⟩

/-- C9: for non-overlapping error spans inside the text, the highlight
segmentation is contiguous from 0 to the text length (so segment starts
ascend), concatenating the segment texts reconstructs the display text
exactly, and every error's span appears as one segment carrying that
error. -/
theorem segments_partition (text : List Char) (errors : List GrammarError)
    (hwf : ∀ e ∈ errors, wfSpan text.length e)
    (hdisj : errors.Pairwise spansDisjoint) :
    ((segments text errors).map TextSegment.text).flatten = text ∧
    chainFrom 0 (segments text errors) (text.length : Int) ∧
    ∀ e ∈ errors, errorSegment text e ∈ segments text errors := by
  by_cases h : errors.isEmpty
  · have he : errors = [] := List.isEmpty_iff.mp h
    subst he
    refine ⟨by simp [segments], ?_, by simp⟩
    exact ⟨rfl, Int.ofNat_nonneg text.length, rfl⟩
  · have hperm := sortByStart_perm errors
    have hwf' : ∀ e ∈ sortByStart errors, wfSpan text.length e :=
      fun e he => hwf e (hperm.mem_iff.mp he)
    have hdisj' : (sortByStart errors).Pairwise spansDisjoint :=
      (hperm.pairwise_iff (fun h => spansDisjoint_symm h)).mpr hdisj
    have hchain := sorted_disjoint_chain (sortByStart errors) text.length
      hwf' hdisj' (sortByStart_sorted errors)
    have hge : ∀ e ∈ sortByStart errors, (0:Int) ≤ e.position.start :=
      fun e he => (hwf' e he).1
    obtain ⟨hj, hc, hm⟩ := segmentsGo_spec text (sortByStart errors) 0
      le_rfl (Int.ofNat_nonneg text.length) hge hwf' hchain
    have hseg : segments text errors = segmentsGo text (sortByStart errors) 0 := by
      unfold segments
      rw [if_neg h]
    refine ⟨?_, ?_, ?_⟩
    · rw [hseg, hj, jsSliceFrom_eq_drop text 0 le_rfl (Int.ofNat_nonneg _)]
      simp
    · rw [hseg]
      exact hc
    · intro e he
      rw [hseg]
      exact hm e (hperm.mem_iff.mpr he)

/-- C9 witness: the segmentation of `wText` with the two disjoint errors
`wE1, wE0` (given unsorted) reconstructs the text, is contiguous, and
contains both error segments. -/
theorem segments_partition_witness :
    (∀ e ∈ [wE1, wE0], wfSpan wText.length e) ∧
    ([wE1, wE0] : List GrammarError).Pairwise spansDisjoint ∧
    ((segments wText [wE1, wE0]).map TextSegment.text).flatten = wText ∧
    errorSegment wText wE0 ∈ segments wText [wE1, wE0] := by
  have h := segments_partition wText [wE1, wE0] (by decide) (by decide)
  exact ⟨by decide, by decide, h.1, h.2.2 wE0 (by decide)⟩

/-- C10 (spec-modelled constants): a file offered to `FileUpload` is
propagated to the selection (with the error message cleared) exactly when
its computed lower-cased extension is a supported type and its size in
megabytes is at most the limit; otherwise an error message is set and the
selection is left unchanged. -/
theorem fileUpload_accepts_iff (s : UploadState) (f : FileInfo) :
    handleFile s f =
      if extensionOf f ∈ SUPPORTED_FILE_TYPES ∧
          (f.size : ℚ) / (1024 * 1024) ≤ MAX_FILE_SIZE_MB then
        { selectedFile := some f, errorMsg := none }
      else
        { selectedFile := s.selectedFile,
          errorMsg := some (if extensionOf f ∈ SUPPORTED_FILE_TYPES then
            "File too large.".toList else "Unsupported file type.".toList) } := by
  unfold handleFile validateFile
  by_cases h1 : extensionOf f ∈ SUPPORTED_FILE_TYPES
  · by_cases h2 : (f.size : ℚ) / (1024 * 1024) > MAX_FILE_SIZE_MB
    · rw [if_neg (by simp [h1]), if_pos h2,
        if_neg (by rintro ⟨-, hle⟩; exact absurd h2 (not_lt.mpr hle)),
        if_pos h1]
    · rw [if_neg (by simp [h1]), if_neg h2,
        if_pos ⟨h1, not_lt.mp h2⟩]
  · rw [if_pos (by simp [h1]), if_neg (by rintro ⟨hmem, -⟩; exact h1 hmem),
      if_neg h1]

/-- C10 witness: the accept equation evaluated at a valid and at an
oversized file against an empty upload state. -/
theorem fileUpload_accepts_iff_witness :
    handleFile ⟨none, none⟩ wFileOk =
      (if extensionOf wFileOk ∈ SUPPORTED_FILE_TYPES ∧
          (wFileOk.size : ℚ) / (1024 * 1024) ≤ MAX_FILE_SIZE_MB then
        { selectedFile := some wFileOk, errorMsg := none }
      else
        { selectedFile := (none : Option FileInfo),
          errorMsg := some (if extensionOf wFileOk ∈ SUPPORTED_FILE_TYPES then
            "File too large.".toList else "Unsupported file type.".toList) }) ∧
    handleFile ⟨none, none⟩ wFileBig =
      (if extensionOf wFileBig ∈ SUPPORTED_FILE_TYPES ∧
          (wFileBig.size : ℚ) / (1024 * 1024) ≤ MAX_FILE_SIZE_MB then
        { selectedFile := some wFileBig, errorMsg := none }
      else
        { selectedFile := (none : Option FileInfo),
          errorMsg := some (if extensionOf wFileBig ∈ SUPPORTED_FILE_TYPES then
            "File too large.".toList else "Unsupported file type.".toList) }) :=
  ⟨fileUpload_accepts_iff ⟨none, none⟩ wFileOk,
    fileUpload_accepts_iff ⟨none, none⟩ wFileBig⟩

end GrammarCheck

